import Mathlib

/-!
Shallow embedding of the firestore-collections query/mutation engine
(`firestore_collections/collection.py` and `firestore_collections/utils.py`).

Python values flowing through the engine (field values, condition values)
are modelled by `Value`; documents (Python dicts / Firestore document
bodies) by association lists `Doc`; the store adapter (the Firestore
client) is abstracted by function parameters (`stream` for query
streaming, `find` for the uniqueness-check lookup).  Exceptions raised by
the engine become `Except Err`, with one constructor per distinct raise
site kind in the source.
-/

namespace FS

/-- Model of Python values handled by the engine: None, bools, ints,
strings, pydantic `SecretStr` values, timestamps (`datetime.utcnow()`
instants, abstracted to an integer tick) and lists. -/
inductive Value where
  | null : Value
  | bool : Bool → Value
  | int : Int → Value
  | str : String → Value
  | secret : String → Value
  | time : Int → Value
  | list : List Value → Value

/-- Errors raised by the engine.  `ValueError` raise sites map to the
invalid-argument family (distinguished by site), `NotImplementedError`
to `orderByUnsupported`, `google.api_core.exceptions.Conflict` to
`conflict`, and a `TypeError` from taking `len()` of a non-sequence to
`typeError`. -/
inductive Err where
  | ownerRequired : Err        -- ValueError: an owner must be defined
  | missingId : Err            -- ValueError: provided document has no id
  | conflict : Err             -- Conflict: unique key already exists
  | tooManyInValues : Err      -- ValueError: too many values for `in` query
  | orderByUnsupported : Err   -- NotImplementedError: order_by with `in`
  | mismatchedLengths : Err    -- ValueError: list sizes must match
  | multipleInOperators : Err  -- ValueError: more than one `in` operator
  | operatorsNotMixable : Err  -- ValueError: operators cannot be mixed
  | invalidBatchSize : Err     -- ValueError: batch_size must be larger than 0
  | emptyBulkInput : Err       -- ValueError: no documents provided
  | typeError : Err            -- TypeError from the Python runtime
  deriving DecidableEq, Repr

/-- A document body / Python dict: an association list from field names
to values (keys are unique in every dict the source builds). -/
abbrev Doc := List (String × Value)

/-- Dict lookup (first binding wins; dicts built by the source have
unique keys). -/
def lookupDoc : Doc → String → Option Value
  | [], _ => none
  | (k, v) :: rest, key => if k = key then some v else lookupDoc rest key

/-- Dict assignment `d[key] = v`: replace the binding in place, or append. -/
def setField : Doc → String → Value → Doc
  | [], key, v => [(key, v)]
  | (k, w) :: rest, key, v =>
      if k = key then (key, v) :: rest else (k, w) :: setField rest key v

/-- `d.pop(key, None)` restricted to its effect on the dict: drop the key. -/
def removeKey : Doc → String → Doc
  | [], _ => []
  | (k, v) :: rest, key =>
      if k = key then removeKey rest key else (k, v) :: removeKey rest key

/-- Firestore merge-write semantics (`set(..., merge=True)`): payload
keys override the stored document, all other stored keys survive. -/
def mergeDocs (old payload : Doc) : Doc :=
  (old.filter (fun kv => (lookupDoc payload kv.1).isNone)) ++ payload

/-- Effect of `document.set(payload, merge=m)` on a stored body `old`. -/
def applySet (old payload : Doc) (merge : Bool) : Doc :=
  if merge then mergeDocs old payload else payload

/-- A write issued to the store adapter (directly or inside a batch):
`document.set(payload, merge=m)`, `document.create(payload)` or
`document.delete()`, each addressed by the document id. -/
inductive StoreOp where
  | set : String → Doc → Bool → StoreOp
  | create : String → Doc → StoreOp
  | delete : String → StoreOp

/-- Per-value step of `parse_document_to_dict` / `parse_attributes_to_dict`
(utils.py): a `SecretStr` is unwrapped to its plain string; an enum value
would be replaced by its primitive (enums are modelled already primitive);
everything else is kept. -/
def parseValue1 : Value → Value
  | .secret s => .str s
  | v => v

/-- `parse_document_to_dict` (utils.py): `doc.dict()` then per-value
secret/enum normalisation.  The record is modelled directly as its field
dict, so only the per-value map remains. -/
def parse_document_to_dict (d : Doc) : Doc :=
  d.map (fun kv => (kv.1, parseValue1 kv.2))

/-- `doc.id` of a record modelled as its field dict: the `id` field when
it is a string, `none` when it is Python `None` (pydantic guarantees the
field is a string or `None`). -/
def docIdOf (d : Doc) : Option String :=
  match lookupDoc d "id" with
  | some (.str s) => some s
  | _ => none

/-- An `Optional[str]` owner as a stored field value. -/
def ownerVal : Option String → Value
  | some s => .str s
  | none => .null

/-- Structural helper for `chunks`: the fuel (first argument) bounds the
recursion depth and is irrelevant as long as it is at least the list
length (`chunksAux_fuel`). -/
def chunksAux : Nat → List α → Nat → List (List α)
  | _, [], _ => []
  | 0, _ :: _, _ => []
  | fuel + 1, x :: rest, n =>
      if 0 < n then
        (x :: rest).take n :: chunksAux fuel ((x :: rest).drop n) n
      else []

/-- `chunks` (utils.py): slices of size `n` in order.  The source only
calls it with `n = 10`; `n = 0` (where Python `range` would raise) is
mapped to the empty list. -/
def chunks (lst : List α) (n : Nat) : List (List α) :=
  chunksAux lst.length lst n

theorem chunksAux_fuel {n : Nat} (hn : 0 < n) :
    ∀ (fuel fuel' : Nat) (lst : List α), lst.length ≤ fuel →
      lst.length ≤ fuel' → chunksAux fuel lst n = chunksAux fuel' lst n := by
  intro fuel
  induction fuel with
  | zero =>
      intro fuel' lst h _
      match lst with
      | [] => cases fuel' <;> rfl
      | x :: rest => simp at h
  | succ f ih =>
      intro fuel' lst h h'
      match lst with
      | [] => cases fuel' <;> rfl
      | x :: rest =>
          match fuel' with
          | 0 => simp at h'
          | f' + 1 =>
              simp only [chunksAux, if_pos hn]
              congr 1
              apply ih
              · simp only [List.length_drop, List.length_cons]
                simp only [List.length_cons] at h
                omega
              · simp only [List.length_drop, List.length_cons]
                simp only [List.length_cons] at h'
                omega

/-- The defining equation of the source `chunks` generator. -/
theorem chunks_cons {n : Nat} (hn : 0 < n) (x : α) (rest : List α) :
    chunks (x :: rest) n =
      (x :: rest).take n :: chunks ((x :: rest).drop n) n := by
  show chunksAux (rest.length + 1) (x :: rest) n = _
  simp only [chunksAux, if_pos hn]
  congr 1
  apply chunksAux_fuel hn
  · simp only [List.length_drop, List.length_cons]; omega
  · exact Nat.le_refl _

theorem chunks_nil (n : Nat) : chunks ([] : List α) n = [] := rfl

/-- Python `str.lower()` (ASCII operator strings in this code base). -/
def strToLower (s : String) : String :=
  String.mk (s.data.map Char.toLower)

/-- Python `zip` over three lists: truncates to the shortest. -/
def zip3 : List α → List β → List γ → List (α × β × γ)
  | x :: xs, y :: ys, z :: zs => (x, y, z) :: zip3 xs ys zs
  | _, _, _ => []

/-- A query condition `(attribute, operator, value)`. -/
abbrev Cond := String × String × Value

/-- One query actually issued to the store adapter: its chained `where`
clauses in order, its `order_by` keys (attribute, ascending?) and the
limit finally applied. -/
structure SubQuery where
  conditions : List Cond
  orderBy : List (String × Bool)
  limit : Option Nat

/-- Observable behaviour of a query entry point: the trace of queries
issued to the store, and the returned documents or the raised error. -/
structure QueryEffect where
  queries : List SubQuery
  result : Except Err (List Doc)

/-- `if limit:` truthiness — `None` and `0` both leave the query
unlimited. -/
def effLimit : Option Nat → Option Nat
  | some n => if n = 0 then none else some n
  | none => none

/-- `Collection._query_in` (collection.py:162-213).  `stream` abstracts
the store adapter streaming one built query and the per-document schema
validation; the trace records each query issued, in order. -/
def query_in (stream : SubQuery → List Doc) (attr : String)
    (values : List Value) (additional_attributes : List String)
    (additional_values : List Value) (additional_operator : List String)
    (limit : Option Nat) (order_by : List (String × Bool)) : QueryEffect :=
  -- Split values up in N lists of max 10 (Firestore limits `in` to 10)
  let values_lists := chunks values 10
  if 10 < values_lists.length then
    ⟨[], .error .tooManyInValues⟩
  else if 0 < order_by.length then
    ⟨[], .error .orderByUnsupported⟩
  else if additional_attributes.length ≠ additional_values.length then
    ⟨[], .error .mismatchedLengths⟩
  else if additional_values.length ≠ additional_operator.length then
    ⟨[], .error .mismatchedLengths⟩
  else
    -- one independent query per chunk: the `in` clause first, then every
    -- additional (attribute, operator, value) clause from the zip
    let subs := values_lists.map (fun vs =>
      SubQuery.mk
        ((attr, "in", Value.list vs) ::
          (zip3 additional_attributes additional_values additional_operator).map
            (fun t => (t.1, t.2.2, t.2.1)))
        order_by (effLimit limit))
    ⟨subs, .ok (subs.map stream).flatten⟩

/-- The operators that `_query` allows to be mixed (collection.py:133). -/
def allowedMixedOperators : List String :=
  [">=", "<=", "==", "!=", ">", "<", "in"]

/-- `Collection._query` (collection.py:102-160).  `parse` abstracts
`_parse_conditions`'s per-value normalisation (ISO string to timestamp
for datetime-typed attributes; attribute and operator never change). -/
def query (parse : String → Value → Value) (stream : SubQuery → List Doc)
    (conditions : List Cond) (limit : Option Nat)
    (order_by : List (String × Bool)) : QueryEffect :=
  let conditions := conditions.map (fun c => (c.1, c.2.1, parse c.1 c.2.2))
  let operators := conditions.map (fun c => strToLower c.2.1)
  let in_operator_count := operators.count "in"
  if 1 < in_operator_count then
    ⟨[], .error .multipleInOperators⟩
  else if in_operator_count = 1 then
    let in_operator_idx := operators.indexOf "in"
    match conditions[in_operator_idx]? with
    | none => ⟨[], .error .multipleInOperators⟩  -- unreachable: count = 1
    | some in_condition =>
      let rest := conditions.eraseIdx in_operator_idx
      match in_condition.2.2 with
      | .list vs =>
          query_in stream in_condition.1 vs (rest.map (fun c => c.1))
            (rest.map (fun c => c.2.2)) (rest.map (fun c => c.2.1))
            limit order_by
      | _ => ⟨[], .error .typeError⟩  -- len() of a non-sequence value
  else
    let unique_operators := operators.dedup
    if 1 < unique_operators.length ∧
        ¬ (unique_operators.all (fun op => allowedMixedOperators.contains op)) then
      ⟨[], .error .operatorsNotMixable⟩
    else
      let sub : SubQuery := ⟨conditions, order_by, effLimit limit⟩
      ⟨[sub], .ok (stream sub)⟩

/-- `Collection.query_by_attributes` (collection.py:227-243): only the
attribute/value lengths are compared; `zip` truncates silently. -/
def query_by_attributes (parse : String → Value → Value)
    (stream : SubQuery → List Doc) (attributes : List String)
    (values : List Value) (operators : List String) (limit : Option Nat)
    (order_by : List (String × Bool)) : QueryEffect :=
  if attributes.length ≠ values.length then
    ⟨[], .error .mismatchedLengths⟩
  else
    query parse stream
      ((zip3 attributes operators values).map (fun t => (t.1, t.2.1, t.2.2)))
      limit order_by

/-- Per-collection configuration read by the engine: `is_updatable`
(schema has an `updated_at` field), the owner-variant flags derived from
the schema's base class, the constructor's `force_ownership` flag and
the schema's `__unique_keys__`. -/
structure Collection where
  is_updatable : Bool
  requires_owner_insert : Bool
  requires_owner_update : Bool
  schema_with_owner : Bool    -- issubclass(schema, SchemaWithOwner)
  force_ownership : Bool
  unique_keys : List String

/-- `Collection._check_restrictions` (collection.py:538-552).  `find`
abstracts `get_by_attribute`: the id of the first document matching
`attribute == value`, or `none` for `NotFound`. -/
def check_restrictions (find : String → Value → Option String)
    (keys : List String) (fields : Doc) (doc_id : Option String)
    (is_update : Bool) : Except Err Unit :=
  match keys with
  | [] => .ok ()
  | key :: rest =>
      let value := (lookupDoc fields key).getD .null
      match find key value with
      | none =>
          -- NotFound: no document with given unique key found
          check_restrictions find rest fields doc_id is_update
      | some found_id =>
          -- If the clashing document is itself then allow clash
          if is_update = true ∧ doc_id = some found_id then
            check_restrictions find rest fields doc_id is_update
          else
            .error .conflict

/-- The audit stamps `update` applies (collection.py:262-269):
`updated_at` when the schema is updatable, `updated_by` when the owner
variant requires it. -/
def stampUpdate (c : Collection) (fields : Doc) (owner : Option String)
    (now : Value) : Doc :=
  let fields :=
    if c.is_updatable then setField fields "updated_at" now else fields
  if c.requires_owner_update then setField fields "updated_by" (ownerVal owner)
  else fields

/-- `Collection.update` with `dry_run=True` (collection.py:245-276):
id check, uniqueness check, audit stamping, serialisation.  Returns the
captured `doc_id` together with the payload dict. -/
def Collection.update_dry (c : Collection)
    (find : String → Value → Option String) (fields : Doc)
    (owner : Option String) (force : Bool) (now : Value) :
    Except Err (String × Doc) :=
  match docIdOf fields with
  | none => .error .missingId
  | some doc_id =>
    match check_restrictions find c.unique_keys fields (some doc_id) true with
    | .error e => .error e
    | .ok _ =>
      if c.requires_owner_update ∧ force = false ∧ owner = none ∧
          c.force_ownership then
        .error .ownerRequired
      else
        .ok (doc_id, parse_document_to_dict (stampUpdate c fields owner now))

/-- `Collection.update` (collection.py:245-285): the dry-run payload is
merge-written at the captured document id. -/
def Collection.update (c : Collection)
    (find : String → Value → Option String) (fields : Doc)
    (owner : Option String) (force : Bool) (now : Value) :
    Except Err StoreOp :=
  match c.update_dry find fields owner force now with
  | .error e => .error e
  | .ok (doc_id, payload) => .ok (StoreOp.set doc_id payload true)

/-- The audit stamps `insert` applies (collection.py:394-400):
`created_at` always, `created_by` when the owner variant requires it. -/
def stampInsert (c : Collection) (fields : Doc) (owner : Option String)
    (now : Value) : Doc :=
  let fields := setField fields "created_at" now
  if c.requires_owner_insert then setField fields "created_by" (ownerVal owner)
  else fields

/-- `Collection.insert` with `dry_run=True` (collection.py:383-409):
`created_at` stamp, ownership rule, uniqueness check, serialisation. -/
def Collection.insert_dry (c : Collection)
    (find : String → Value → Option String) (fields : Doc)
    (owner : Option String) (force : Bool) (now : Value) :
    Except Err Doc :=
  if c.requires_owner_insert ∧ force = false ∧ owner = none ∧
      c.force_ownership then
    .error .ownerRequired
  else
    match check_restrictions find c.unique_keys (stampInsert c fields owner now)
        (docIdOf (stampInsert c fields owner now)) false with
    | .error e => .error e
    | .ok _ => .ok (parse_document_to_dict (stampInsert c fields owner now))

/-- `doc.pop('id', None)` followed by the ObjectId fallback: the id the
write is addressed to.  `gen` abstracts `str(ObjectId())`. -/
def popIdOr (payload : Doc) (gen : String) : String :=
  match lookupDoc payload "id" with
  | some (.str s) => s
  | _ => gen

/-- `Collection.insert` (collection.py:383-419): the dry payload minus
its `id` key is hard-created at the popped (or generated) id. -/
def Collection.insert (c : Collection)
    (find : String → Value → Option String) (fields : Doc)
    (owner : Option String) (force : Bool) (now : Value) (gen : String) :
    Except Err StoreOp :=
  match c.insert_dry find fields owner force now with
  | .error e => .error e
  | .ok payload =>
      .ok (StoreOp.create (popIdOr payload gen) (removeKey payload "id"))

/-- The write `bulk_update` batches for one dry-run payload
(collection.py:364-372): pop the id, `set` with the call's `merge`
argument (the source default is `merge=False`). -/
def bulkUpdateOp (payload : Doc) (gen : String) (merge : Bool) : StoreOp :=
  StoreOp.set (popIdOr payload gen) (removeKey payload "id") merge

/-- The write `bulk_insert` batches for one dry-run payload
(collection.py:445-452): pop the id, `create`. -/
def bulkInsertOp (payload : Doc) (gen : String) : StoreOp :=
  StoreOp.create (popIdOr payload gen) (removeKey payload "id")

/-- The `for i, doc in enumerate(docs)` batching loop shared by the bulk
operations (collection.py:364-377, 445-457, 508-532): writes accumulate
into the current `WriteBatch`; whenever `(i + 1) % batch_size == 0` the
batch is committed and a fresh one starts.  Returns the committed
batches in order, and the writes still pending after the loop. -/
def batchLoop (b : Nat) : List α → Nat → List α → List (List α) × List α
  | [], _, pending => ([], pending)
  | x :: rest, i, pending =>
      let pending := pending ++ [x]
      if (i + 1) % b = 0 then
        let r := batchLoop b rest (i + 1) []
        (pending :: r.1, r.2)
      else
        batchLoop b rest (i + 1) pending

/-- The committed batches of one bulk call: the loop above, plus the
trailing `if (i + 1) % batch_size != 0: commit()` which flushes the
partial batch (the stale loop variable `i` equals `len(items) - 1`;
callers guarantee a non-empty item list). -/
def submitBatches (b : Nat) (items : List α) : List (List α) :=
  let r := batchLoop b items 0 []
  match items with
  | [] => r.1
  | _ :: _ => if items.length % b ≠ 0 then r.1 ++ [r.2] else r.1

/-- The sequential dry-run pass of `bulk_insert` (collection.py:432-440):
each document is run through `insert(dry_run=True)`; the first raised
error aborts the call. -/
def seqInsertDry (c : Collection) (find : String → Value → Option String)
    (owner : Option String) (force : Bool) (now : Value) :
    List Doc → Except Err (List Doc)
  | [] => .ok []
  | d :: rest =>
      match c.insert_dry find d owner force now with
      | .error e => .error e
      | .ok payload =>
          match seqInsertDry c find owner force now rest with
          | .error e => .error e
          | .ok rest' => .ok (payload :: rest')

/-- The sequential dry-run pass of `bulk_update` (collection.py:351-359). -/
def seqUpdateDry (c : Collection) (find : String → Value → Option String)
    (owner : Option String) (force : Bool) (now : Value) :
    List Doc → Except Err (List Doc)
  | [] => .ok []
  | d :: rest =>
      match c.update_dry find d owner force now with
      | .error e => .error e
      | .ok (_, payload) =>
          match seqUpdateDry c find owner force now rest with
          | .error e => .error e
          | .ok rest' => .ok (payload :: rest')

/-- `Collection.bulk_insert` (collection.py:421-461), observed as the
sequence of committed batches of writes.  `gen` abstracts the fresh
`str(ObjectId())` drawn at loop index `i`. -/
def Collection.bulk_insert (c : Collection)
    (find : String → Value → Option String) (docs : List Doc)
    (owner : Option String) (force : Bool) (now : Value)
    (gen : Nat → String) (batch_size : Int) :
    Except Err (List (List StoreOp)) :=
  if batch_size ≤ 0 then .error .invalidBatchSize
  else if docs.length = 0 then .error .emptyBulkInput
  else
    match seqInsertDry c find owner force now docs with
    | .error e => .error e
    | .ok payloads =>
        let ops := payloads.enum.map (fun p => bulkInsertOp p.2 (gen p.1))
        .ok (submitBatches batch_size.toNat ops)

/-- `Collection.bulk_update` (collection.py:339-381), observed as the
sequence of committed batches of writes (`merge` defaults to `False` in
the source). -/
def Collection.bulk_update (c : Collection)
    (find : String → Value → Option String) (docs : List Doc)
    (owner : Option String) (force : Bool) (now : Value)
    (gen : Nat → String) (merge : Bool) (batch_size : Int) :
    Except Err (List (List StoreOp)) :=
  if batch_size ≤ 0 then .error .invalidBatchSize
  else if docs.length = 0 then .error .emptyBulkInput
  else
    match seqUpdateDry c find owner force now docs with
    | .error e => .error e
    | .ok payloads =>
        let ops := payloads.enum.map (fun p => bulkUpdateOp p.2 (gen p.1) merge)
        .ok (submitBatches batch_size.toNat ops)

/-- The soft-delete marker document written before a hard delete
(collection.py:472-482). -/
def softDeleteDoc (is_updatable : Bool) (now : Value) (owner : String) : Doc :=
  if is_updatable then
    [("updated_at", now), ("updated_by", .str owner), ("deleted", .bool true)]
  else
    [("deleted", .bool true)]

/-- `Collection.delete` (collection.py:463-484), observed as the ordered
list of writes issued to the store. -/
def Collection.delete (c : Collection) (id : String)
    (owner : Option String) (force : Bool) (now : Value) :
    Except Err (List StoreOp) :=
  if c.schema_with_owner then
    if force = false ∧ owner = none ∧ c.force_ownership then
      .error .ownerRequired
    else
      match owner with
      | some o =>
          .ok [StoreOp.set id (softDeleteDoc c.is_updatable now o) true,
               StoreOp.delete id]
      | none => .ok [StoreOp.delete id]
  else
    .ok [StoreOp.delete id]

/-! ### Dictionary lemmas -/

theorem lookup_setField_self (d : Doc) (k : String) (v : Value) :
    lookupDoc (setField d k v) k = some v := by
  induction d with
  | nil => simp [setField, lookupDoc]
  | cons kv rest ih =>
      obtain ⟨k0, v0⟩ := kv
      by_cases h : k0 = k
      · simp [setField, h, lookupDoc]
      · simp [setField, h, lookupDoc, ih]

theorem lookup_setField_ne (d : Doc) (k k' : String) (v : Value)
    (h : k' ≠ k) : lookupDoc (setField d k v) k' = lookupDoc d k' := by
  have h' : k ≠ k' := Ne.symm h
  induction d with
  | nil => simp [setField, lookupDoc, h']
  | cons kv rest ih =>
      obtain ⟨k0, v0⟩ := kv
      by_cases h0 : k0 = k
      · subst h0
        simp [setField, lookupDoc, h']
      · simp [setField, h0, lookupDoc, ih]

theorem lookup_removeKey_self (d : Doc) (k : String) :
    lookupDoc (removeKey d k) k = none := by
  induction d with
  | nil => rfl
  | cons kv rest ih =>
      obtain ⟨k0, v0⟩ := kv
      by_cases h : k0 = k
      · simp [removeKey, h, ih]
      · simp [removeKey, h, lookupDoc, ih]

theorem lookup_removeKey_ne (d : Doc) (k k' : String) (h : k' ≠ k) :
    lookupDoc (removeKey d k) k' = lookupDoc d k' := by
  have h' : k ≠ k' := Ne.symm h
  induction d with
  | nil => rfl
  | cons kv rest ih =>
      obtain ⟨k0, v0⟩ := kv
      by_cases h0 : k0 = k
      · subst h0
        simp [removeKey, lookupDoc, h', ih]
      · simp [removeKey, h0, lookupDoc, ih]

theorem lookup_parse (d : Doc) (k : String) :
    lookupDoc (parse_document_to_dict d) k = (lookupDoc d k).map parseValue1 := by
  induction d with
  | nil => rfl
  | cons kv rest ih =>
      obtain ⟨k0, v0⟩ := kv
      by_cases h : k0 = k
      · simp [parse_document_to_dict, lookupDoc, h]
      · simpa [parse_document_to_dict, lookupDoc, h] using ih

/-- The key fact about Firestore merge-writes: the payload decides every
key it holds, the stored document decides the rest. -/
theorem lookup_mergeDocs (old payload : Doc) (k : String) :
    lookupDoc (mergeDocs old payload) k =
      match lookupDoc payload k with
      | some v => some v
      | none => lookupDoc old k := by
  induction old with
  | nil =>
      simp only [mergeDocs, List.filter_nil, List.nil_append]
      cases h : lookupDoc payload k <;> simp [h, lookupDoc]
  | cons kv rest ih =>
      obtain ⟨k0, v0⟩ := kv
      simp only [mergeDocs] at ih ⊢
      by_cases hp : lookupDoc payload k0 = none
      · rw [List.filter_cons]
        simp only [hp, Option.isNone_none, if_true, List.cons_append]
        by_cases hk : k0 = k
        · subst hk
          simp [lookupDoc, hp]
        · simp only [lookupDoc, hk, if_false, ih]
      · obtain ⟨v, hv⟩ := Option.ne_none_iff_exists'.mp hp
        rw [List.filter_cons]
        simp only [hv, Option.isNone_some, Bool.false_eq_true, if_false]
        rw [ih]
        by_cases hk : k0 = k
        · subst hk
          simp [hv]
        · cases hpk : lookupDoc payload k <;> simp [hpk, lookupDoc, hk]

theorem applySet_merge (old payload : Doc) :
    applySet old payload true = mergeDocs old payload := rfl

theorem applySet_replace (old payload : Doc) :
    applySet old payload false = payload := rfl

/-! ### Chunking lemmas -/

theorem chunks_ne_nil {n : Nat} (hn : 0 < n) (l : List α) (hl : l ≠ []) :
    chunks l n = l.take n :: chunks (l.drop n) n := by
  match l with
  | [] => exact absurd rfl hl
  | x :: rest => exact chunks_cons hn x rest

theorem chunks_map_length_aux {n : Nat} (hn : 0 < n) :
    ∀ (L : Nat) (l : List α), l.length = L →
      (chunks l n).map List.length =
        List.replicate (l.length / n) n ++
          (if l.length % n = 0 then [] else [l.length % n]) := by
  intro L
  induction L using Nat.strong_induction_on with
  | _ L ih =>
      intro l hL
      match l with
      | [] => simp [chunks_nil]
      | x :: rest =>
          have hpos : 0 < (x :: rest).length := by simp
          rw [chunks_cons hn, List.map_cons]
          by_cases hc : (x :: rest).length ≤ n
          · have hdrop : (x :: rest).drop n = [] := by
              apply List.drop_eq_nil_of_le hc
            rw [hdrop, chunks_nil]
            have htake : ((x :: rest).take n).length = (x :: rest).length := by
              rw [List.length_take]; omega
            rw [htake]
            rcases Nat.lt_or_ge (x :: rest).length n with hlt | hge
            · rw [Nat.div_eq_of_lt hlt, Nat.mod_eq_of_lt hlt]
              have hne : (x :: rest).length ≠ 0 := by omega
              simp [hne]
            · have heq : (x :: rest).length = n := by omega
              rw [heq, Nat.div_self hn, Nat.mod_self]
              simp
          · have hlt : n < (x :: rest).length := by omega
            have hdroplen : ((x :: rest).drop n).length = (x :: rest).length - n := by
              simp [List.length_drop]
            have hrec := ih ((x :: rest).length - n) (by omega)
              ((x :: rest).drop n) hdroplen
            rw [hrec, hdroplen]
            have htake : ((x :: rest).take n).length = n := by
              rw [List.length_take]; omega
            rw [htake]
            obtain ⟨m, hm⟩ : ∃ m, (x :: rest).length = n + m :=
              ⟨(x :: rest).length - n, by omega⟩
            rw [hm]
            have h1 : (n + m) - n = m := by omega
            have h2 : (n + m) / n = m / n + 1 := by
              rw [Nat.add_comm n m, Nat.add_div_right _ hn]
            have h3 : (n + m) % n = m % n := Nat.add_mod_left n m
            rw [h1, h2, h3, List.replicate_succ, List.cons_append]

theorem chunks_map_length {n : Nat} (hn : 0 < n) (l : List α) :
    (chunks l n).map List.length =
      List.replicate (l.length / n) n ++
        (if l.length % n = 0 then [] else [l.length % n]) :=
  chunks_map_length_aux hn l.length l rfl

/-- Ceiling division, written the way the claims state it. -/
theorem ceil_div_spec {n : Nat} (hn : 0 < n) (L : Nat) :
    L / n + (if L % n = 0 then 0 else 1) = (L + n - 1) / n := by
  obtain ⟨q, r, hr, hL⟩ : ∃ q r, r < n ∧ L = n * q + r :=
    ⟨L / n, L % n, Nat.mod_lt _ hn, by rw [Nat.div_add_mod]⟩
  subst hL
  have hdiv : (n * q + r) / n = q + r / n := Nat.mul_add_div hn q r
  have hmod : (n * q + r) % n = r % n := by
    rw [Nat.mul_add_mod]
  rcases Nat.eq_zero_or_pos r with h0 | hpos
  · subst h0
    rw [hdiv, hmod]
    have h2 : n * q + 0 + n - 1 = n * q + (n - 1) := by omega
    rw [h2, Nat.mul_add_div hn, Nat.div_eq_of_lt (show n - 1 < n by omega)]
    simp
  · have h1 : n * q + r + n - 1 = n * (q + 1) + (r - 1) := by
      have hx : n * (q + 1) = n * q + n := by ring
      omega
    have hne : r ≠ 0 := by omega
    rw [hdiv, hmod, Nat.div_eq_of_lt hr, Nat.mod_eq_of_lt hr, h1,
      Nat.mul_add_div hn, Nat.div_eq_of_lt (show r - 1 < n by omega)]
    simp [hne]

theorem chunks_length {n : Nat} (hn : 0 < n) (l : List α) :
    (chunks l n).length = (l.length + n - 1) / n := by
  have h := congrArg List.length (chunks_map_length hn l)
  rw [List.length_map, List.length_append, List.length_replicate] at h
  rw [h, ← ceil_div_spec hn]
  split <;> simp

theorem chunks_chunk_le {n : Nat} (hn : 0 < n) (l : List α) :
    ∀ c ∈ chunks l n, c.length ≤ n := by
  intro c hc
  have hmem : c.length ∈ (chunks l n).map List.length :=
    List.mem_map_of_mem _ hc
  rw [chunks_map_length hn] at hmem
  rcases List.mem_append.mp hmem with h | h
  · exact Nat.le_of_eq (List.eq_of_mem_replicate h)
  · split at h
    · simp at h
    · simp at h
      rw [h]
      exact Nat.le_of_lt (Nat.mod_lt _ hn)

/-! ### Batching lemmas -/

theorem mod_succ_full {b i : Nat} (hb : 0 < b) (h : (i + 1) % b = 0) :
    i % b = b - 1 := by
  have h2 : (i % b + 1) % b = 0 := by rw [Nat.mod_add_mod]; exact h
  have h3 : i % b < b := Nat.mod_lt _ hb
  by_cases h4 : i % b + 1 < b
  · rw [Nat.mod_eq_of_lt h4] at h2; omega
  · omega

theorem mod_succ_not_full {b i : Nat} (hb : 0 < b)
    (h : ¬ (i + 1) % b = 0) : (i + 1) % b = i % b + 1 := by
  have h3 : i % b < b := Nat.mod_lt _ hb
  by_cases h4 : i % b + 1 < b
  · rw [← Nat.mod_add_mod, Nat.mod_eq_of_lt h4]
  · exfalso
    apply h
    have h5 : i % b + 1 = b := by omega
    rw [← Nat.mod_add_mod, h5, Nat.mod_self]

theorem chunks_append_full {b : Nat} (hb : 0 < b) (p rest : List α)
    (h : p.length = b) : chunks (p ++ rest) b = p :: chunks rest b := by
  have hp : p ≠ [] := by
    intro he
    rw [he] at h
    simp at h
    omega
  have hne : p ++ rest ≠ [] := by
    simp [hp]
  rw [chunks_ne_nil hb _ hne, ← h, List.take_left, List.drop_left]

theorem batchLoop_spec {b : Nat} (hb : 0 < b) :
    ∀ (items pending : List α) (i : Nat), pending.length = i % b →
      (batchLoop b items i pending).1 ++
        (if (batchLoop b items i pending).2.isEmpty then []
         else [(batchLoop b items i pending).2]) =
      chunks (pending ++ items) b := by
  intro items
  induction items with
  | nil =>
      intro pending i hp
      simp only [batchLoop, List.append_nil]
      cases pending with
      | nil => simp [chunks_nil]
      | cons x rest =>
          have hlt : (x :: rest).length < b := by
            rw [hp]; exact Nat.mod_lt _ hb
          rw [chunks_ne_nil hb _ (by simp),
            List.take_of_length_le (Nat.le_of_lt hlt),
            List.drop_eq_nil_of_le (Nat.le_of_lt hlt), chunks_nil]
          simp
  | cons x rest ih =>
      intro pending i hp
      simp only [batchLoop]
      have happ : pending ++ x :: rest = (pending ++ [x]) ++ rest := by simp
      by_cases hc : (i + 1) % b = 0
      · rw [if_pos hc]
        have hrec := ih [] (i + 1) (by simp [hc])
        simp only [List.nil_append] at hrec
        have hfull : (pending ++ [x]).length = b := by
          have := mod_succ_full hb hc
          simp [hp, this]
          omega
        rw [List.cons_append, hrec, happ, chunks_append_full hb _ _ hfull]
      · rw [if_neg hc]
        have hinv : (pending ++ [x]).length = (i + 1) % b := by
          rw [mod_succ_not_full hb hc]
          simp [hp]
        have hrec := ih (pending ++ [x]) (i + 1) hinv
        rw [happ] at *
        exact hrec

theorem batchLoop_pending {b : Nat} (hb : 0 < b) :
    ∀ (items pending : List α) (i : Nat), pending.length = i % b →
      (batchLoop b items i pending).2.length = (i + items.length) % b := by
  intro items
  induction items with
  | nil =>
      intro pending i hp
      simpa [batchLoop] using hp
  | cons x rest ih =>
      intro pending i hp
      simp only [batchLoop]
      have hlen : i + (x :: rest).length = (i + 1) + rest.length := by
        simp [List.length_cons]
        omega
      by_cases hc : (i + 1) % b = 0
      · rw [if_pos hc, hlen]
        exact ih [] (i + 1) (by simp [hc])
      · rw [if_neg hc, hlen]
        apply ih (pending ++ [x]) (i + 1)
        rw [mod_succ_not_full hb hc]
        simp [hp]

theorem submitBatches_eq_chunks {b : Nat} (hb : 0 < b) (items : List α)
    (hne : items ≠ []) : submitBatches b items = chunks items b := by
  have hspec := batchLoop_spec hb items [] 0 (by simp)
  have hpend := batchLoop_pending hb items [] 0 (by simp)
  simp only [List.nil_append, Nat.zero_add] at hspec hpend
  match items, hne with
  | x :: rest, _ =>
      show (if (x :: rest).length % b ≠ 0
            then (batchLoop b (x :: rest) 0 []).1 ++
              [(batchLoop b (x :: rest) 0 []).2]
            else (batchLoop b (x :: rest) 0 []).1) = chunks (x :: rest) b
      by_cases hm : (x :: rest).length % b = 0
      · have h2 : (batchLoop b (x :: rest) 0 []).2 = [] := by
          apply List.eq_nil_of_length_eq_zero
          rw [hpend, hm]
        rw [if_neg (by simpa using hm)]
        rw [h2] at hspec
        simpa using hspec
      · rw [if_pos (by simpa using hm)]
        have h3 : ((batchLoop b (x :: rest) 0 []).2.isEmpty) = false := by
          cases h4 : (batchLoop b (x :: rest) 0 []).2 with
          | nil =>
              rw [h4] at hpend
              simp at hpend
              exact absurd hpend.symm hm
          | cons y ys => rfl
        rw [h3] at hspec
        simpa using hspec

/-! ### Fixtures shared by witness and counterexample theorems -/

/-- A store adapter that streams no documents. -/
def streamNone : SubQuery → List Doc := fun _ => []

/-- A `_parse_conditions` value normaliser for schemas without
datetime-typed attributes: the identity. -/
def parseId : String → Value → Value := fun _ v => v

/-- A uniqueness lookup over an empty collection. -/
def findNone : String → Value → Option String := fun _ _ => none

/-! ### Claims -/

/-- C1: for every value list of length L passed to an `in` query, when
L ≤ 100 the engine partitions it into exactly ceil(L/10) chunks of at
most 10 values, issues one independent sub-query per chunk (the `in`
clause on the chunk plus the carried-over additional conditions), and
returns the concatenation of the per-chunk results in chunk order; when
L > 100 it fails with an invalid-argument `ValueError` before issuing
any query (empty trace). -/
theorem C1_in_chunking (stream : SubQuery → List Doc) (attr : String)
    (values : List Value) (addA : List String) (addV : List Value)
    (addO : List String) (limit : Option Nat)
    (h1 : addA.length = addV.length) (h2 : addV.length = addO.length) :
    (values.length ≤ 100 →
      query_in stream attr values addA addV addO limit [] =
        ⟨(chunks values 10).map (fun vs =>
            SubQuery.mk ((attr, "in", Value.list vs) ::
              (zip3 addA addV addO).map (fun t => (t.1, t.2.2, t.2.1)))
              [] (effLimit limit)),
          .ok (((chunks values 10).map (fun vs =>
            SubQuery.mk ((attr, "in", Value.list vs) ::
              (zip3 addA addV addO).map (fun t => (t.1, t.2.2, t.2.1)))
              [] (effLimit limit))).map stream).flatten⟩ ∧
      (chunks values 10).length = (values.length + 9) / 10 ∧
      (∀ c ∈ chunks values 10, c.length ≤ 10)) ∧
    (100 < values.length →
      query_in stream attr values addA addV addO limit [] =
        ⟨[], .error .tooManyInValues⟩) := by
  have h10 : (0 : Nat) < 10 := by norm_num
  have hlen : (chunks values 10).length = (values.length + 9) / 10 :=
    chunks_length h10 values
  constructor
  · intro hle
    refine ⟨?_, hlen, chunks_chunk_le h10 values⟩
    unfold query_in
    rw [if_neg (by rw [hlen]; omega), if_neg (by simp),
      if_neg (by omega), if_neg (by omega)]
  · intro hgt
    unfold query_in
    rw [if_pos (by rw [hlen]; omega)]

/-- C1 witness: 12 values yield two chunked sub-queries (sizes 10 and
2) and 101 values are rejected up front. -/
theorem C1_witness :
    query_in streamNone "a" (List.replicate 12 (Value.int 1)) [] [] []
        none [] =
      ⟨[⟨[("a", "in", Value.list (List.replicate 10 (Value.int 1)))], [], none⟩,
        ⟨[("a", "in", Value.list (List.replicate 2 (Value.int 1)))], [], none⟩],
        .ok []⟩ ∧
    query_in streamNone "a" (List.replicate 101 (Value.int 1)) [] [] []
        none [] = ⟨[], .error .tooManyInValues⟩ := by
  have h := C1_in_chunking streamNone "a" (List.replicate 12 (Value.int 1))
    [] [] [] none rfl rfl
  have h' := C1_in_chunking streamNone "a" (List.replicate 101 (Value.int 1))
    [] [] [] none rfl rfl
  exact ⟨((h.1 (by simp)).1).trans (by rfl), h'.2 (by simp)⟩

theorem docIdOf_eq_some {fields : Doc} {s : String} :
    docIdOf fields = some s ↔ lookupDoc fields "id" = some (.str s) := by
  unfold docIdOf
  cases h : lookupDoc fields "id" with
  | none => simp
  | some v => cases v <;> simp

theorem lookup_stampUpdate_id (c : Collection) (fields : Doc)
    (owner : Option String) (now : Value) :
    lookupDoc (stampUpdate c fields owner now) "id" = lookupDoc fields "id" := by
  have h1 : ("id" : String) ≠ "updated_at" := by decide
  have h2 : ("id" : String) ≠ "updated_by" := by decide
  unfold stampUpdate
  by_cases hu : c.is_updatable <;> by_cases hr : c.requires_owner_update <;>
    simp [hu, hr, lookup_setField_ne _ _ _ _ h1, lookup_setField_ne _ _ _ _ h2]

/-- What a successful dry-run update guarantees: the captured id is the
record's own id and the payload retains it under the `id` key. -/
theorem update_dry_spec {c : Collection}
    {find : String → Value → Option String} {fields : Doc}
    {owner : Option String} {force : Bool} {now : Value}
    {doc_id : String} {payload : Doc}
    (h : c.update_dry find fields owner force now = .ok (doc_id, payload)) :
    docIdOf fields = some doc_id ∧
      payload = parse_document_to_dict (stampUpdate c fields owner now) ∧
      lookupDoc payload "id" = some (.str doc_id) := by
  unfold Collection.update_dry at h
  split at h
  · cases h
  · rename_i did hid
    split at h
    · cases h
    · split at h
      · cases h
      · rw [Except.ok.injEq, Prod.mk.injEq] at h
        obtain ⟨rfl, rfl⟩ := h
        refine ⟨hid, rfl, ?_⟩
        rw [lookup_parse, lookup_stampUpdate_id, docIdOf_eq_some.mp hid]
        rfl

/-- C2: `update` always issues a merge-write (`set` with `merge=True`),
and merge semantics preserve every stored field absent from the written
payload byte-for-byte. -/
theorem C2_update_merge_preserves (c : Collection)
    (find : String → Value → Option String) (fields : Doc)
    (owner : Option String) (force : Bool) (now : Value) (op : StoreOp)
    (h : c.update find fields owner force now = .ok op) :
    ∃ doc_id payload, op = StoreOp.set doc_id payload true ∧
      ∀ (old : Doc) (k : String), lookupDoc payload k = none →
        lookupDoc (applySet old payload true) k = lookupDoc old k := by
  unfold Collection.update at h
  cases hd : c.update_dry find fields owner force now with
  | error e => rw [hd] at h; cases h
  | ok p =>
      obtain ⟨doc_id, payload⟩ := p
      rw [hd, Except.ok.injEq] at h
      refine ⟨doc_id, payload, h.symm, ?_⟩
      intro old k hk
      rw [applySet_merge, lookup_mergeDocs, hk]

/-- A plain collection configuration: updatable schema, no owner
variant, no forced ownership, no unique keys. -/
def ctxPlain : Collection := ⟨true, false, false, false, false, []⟩

/-- C2 witness: a concrete update of one field produces a merge-write
whose absent keys are preserved on any stored document. -/
theorem C2_witness :
    ∃ doc_id payload,
      StoreOp.set "d1"
        [("id", .str "d1"), ("name", .str "bob"), ("updated_at", .time 7)]
        true = StoreOp.set doc_id payload true ∧
      ∀ (old : Doc) (k : String), lookupDoc payload k = none →
        lookupDoc (applySet old payload true) k = lookupDoc old k :=
  C2_update_merge_preserves ctxPlain findNone
    [("id", .str "d1"), ("name", .str "bob"), ("updated_at", .null)]
    none false (.time 7) _ rfl

theorem seqInsertDry_length {c : Collection}
    {find : String → Value → Option String} {owner : Option String}
    {force : Bool} {now : Value} :
    ∀ {docs ps : List Doc},
      seqInsertDry c find owner force now docs = .ok ps →
      ps.length = docs.length := by
  intro docs
  induction docs with
  | nil =>
      intro ps h
      rw [seqInsertDry, Except.ok.injEq] at h
      subst h
      rfl
  | cons d rest ih =>
      intro ps h
      rw [seqInsertDry] at h
      split at h
      · cases h
      · split at h
        · cases h
        · rename_i payload hpay rest' hrest
          rw [Except.ok.injEq] at h
          subst h
          simp [ih hrest]

theorem seqUpdateDry_length {c : Collection}
    {find : String → Value → Option String} {owner : Option String}
    {force : Bool} {now : Value} :
    ∀ {docs ps : List Doc},
      seqUpdateDry c find owner force now docs = .ok ps →
      ps.length = docs.length := by
  intro docs
  induction docs with
  | nil =>
      intro ps h
      rw [seqUpdateDry, Except.ok.injEq] at h
      subst h
      rfl
  | cons d rest ih =>
      intro ps h
      rw [seqUpdateDry] at h
      split at h
      · cases h
      · split at h
        · cases h
        · rename_i pair hpair rest' hrest
          rw [Except.ok.injEq] at h
          subst h
          simp [ih hrest]

/-- C3: for a non-empty list of N items and `batch_size` B > 0, every
bulk operation whose per-item dry-runs succeed commits exactly
ceil(N/B) batches: full batches of B writes, plus one final partial
batch of N mod B writes when B does not divide N (so 1001 items at
B = 500 give batches of 500, 500 and 1). -/
theorem C3_bulk_batching (c : Collection)
    (find : String → Value → Option String) (docs : List Doc)
    (owner : Option String) (force : Bool) (now : Value)
    (gen : Nat → String) (merge : Bool) (batch_size : Int)
    (hb : 0 < batch_size) (hne : docs ≠ []) :
    (∀ ps, seqInsertDry c find owner force now docs = .ok ps →
      ∃ batches,
        c.bulk_insert find docs owner force now gen batch_size = .ok batches ∧
        batches.length =
          (docs.length + batch_size.toNat - 1) / batch_size.toNat ∧
        batches.map List.length =
          List.replicate (docs.length / batch_size.toNat) batch_size.toNat ++
            (if docs.length % batch_size.toNat = 0 then []
             else [docs.length % batch_size.toNat])) ∧
    (∀ ps, seqUpdateDry c find owner force now docs = .ok ps →
      ∃ batches,
        c.bulk_update find docs owner force now gen merge batch_size =
          .ok batches ∧
        batches.length =
          (docs.length + batch_size.toNat - 1) / batch_size.toNat ∧
        batches.map List.length =
          List.replicate (docs.length / batch_size.toNat) batch_size.toNat ++
            (if docs.length % batch_size.toNat = 0 then []
             else [docs.length % batch_size.toNat])) := by
  have hbn : 0 < batch_size.toNat := by omega
  have hlen0 : docs.length ≠ 0 := by
    intro h0
    exact hne (List.eq_nil_of_length_eq_zero h0)
  constructor
  · intro ps hps
    have hops : (ps.enum.map
        (fun p => bulkInsertOp p.2 (gen p.1))).length = docs.length := by
      simp [seqInsertDry_length hps]
    have hopsne : ps.enum.map (fun p => bulkInsertOp p.2 (gen p.1)) ≠ [] := by
      intro he
      have hl := congrArg List.length he
      rw [hops] at hl
      simp at hl
      exact hlen0 (by rw [hl]; rfl)
    refine ⟨submitBatches batch_size.toNat
        (ps.enum.map (fun p => bulkInsertOp p.2 (gen p.1))), ?_, ?_, ?_⟩
    · unfold Collection.bulk_insert
      rw [if_neg (by omega), if_neg hlen0, hps]
    · rw [submitBatches_eq_chunks hbn _ hopsne, chunks_length hbn, hops]
    · rw [submitBatches_eq_chunks hbn _ hopsne, chunks_map_length hbn, hops]
  · intro ps hps
    have hops : (ps.enum.map
        (fun p => bulkUpdateOp p.2 (gen p.1) merge)).length = docs.length := by
      simp [seqUpdateDry_length hps]
    have hopsne : ps.enum.map (fun p => bulkUpdateOp p.2 (gen p.1) merge) ≠ [] := by
      intro he
      have hl := congrArg List.length he
      rw [hops] at hl
      simp at hl
      exact hlen0 (by rw [hl]; rfl)
    refine ⟨submitBatches batch_size.toNat
        (ps.enum.map (fun p => bulkUpdateOp p.2 (gen p.1) merge)), ?_, ?_, ?_⟩
    · unfold Collection.bulk_update
      rw [if_neg (by omega), if_neg hlen0, hps]
    · rw [submitBatches_eq_chunks hbn _ hopsne, chunks_length hbn, hops]
    · rw [submitBatches_eq_chunks hbn _ hopsne, chunks_map_length hbn, hops]

set_option maxRecDepth 100000 in
/-- C3 witness: `bulk_insert` with `batch_size=500` over 1001 records
commits exactly three batches, of 500, 500 and 1 writes. -/
theorem C3_witness :
    ∃ batches,
      ctxPlain.bulk_insert findNone (List.replicate 1001 [("id", Value.null)])
          none false (.time 0) (fun _ => "g") 500 = .ok batches ∧
      batches.length = 3 ∧
      batches.map List.length = [500, 500, 1] :=
  (C3_bulk_batching ctxPlain findNone
      (List.replicate 1001 [("id", Value.null)]) none false (.time 0)
      (fun _ => "g") false 500 (by norm_num) (by simp)).1
    (List.replicate 1001 [("id", Value.null), ("created_at", Value.time 0)]) rfl

theorem check_restrictions_cases (find : String → Value → Option String)
    (keys : List String) (fields : Doc) (doc_id : Option String)
    (is_update : Bool) :
    check_restrictions find keys fields doc_id is_update = .ok () ∨
    check_restrictions find keys fields doc_id is_update = .error .conflict := by
  induction keys with
  | nil => left; rfl
  | cons k rest ih =>
      simp only [check_restrictions]
      cases hf : find k ((lookupDoc fields k).getD .null) with
      | none =>
          simp only [hf]
          exact ih
      | some fid =>
          simp only [hf]
          by_cases hcond : is_update = true ∧ doc_id = some fid
          · rw [if_pos hcond]
            exact ih
          · rw [if_neg hcond]
            right
            rfl

/-- C4: the uniqueness check conflicts exactly when some declared-unique
attribute finds an existing document and the hit is not the updated
document itself (self-match allowed in update mode, never a conflict on
not-found); in every other case it returns cleanly. -/
theorem C4_uniqueness_check (find : String → Value → Option String)
    (keys : List String) (fields : Doc) (doc_id : Option String)
    (is_update : Bool) :
    (check_restrictions find keys fields doc_id is_update =
        .error .conflict ↔
      ∃ k ∈ keys, ∃ fid,
        find k ((lookupDoc fields k).getD .null) = some fid ∧
        ¬ (is_update = true ∧ doc_id = some fid)) ∧
    (check_restrictions find keys fields doc_id is_update = .ok () ∨
     check_restrictions find keys fields doc_id is_update =
       .error .conflict) := by
  refine ⟨?_, check_restrictions_cases find keys fields doc_id is_update⟩
  induction keys with
  | nil =>
      constructor
      · intro h
        cases h
      · intro h
        simp at h
  | cons k rest ih =>
      simp only [check_restrictions]
      cases hf : find k ((lookupDoc fields k).getD .null) with
      | none =>
          simp only [hf]
          rw [ih]
          constructor
          · intro ⟨k', hk', w⟩
            exact ⟨k', List.mem_cons_of_mem _ hk', w⟩
          · intro ⟨k', hk', w⟩
            rcases List.mem_cons.mp hk' with rfl | hmem
            · obtain ⟨fid, hfid, _⟩ := w
              rw [hf] at hfid
              cases hfid
            · exact ⟨k', hmem, w⟩
      | some fid =>
          simp only [hf]
          by_cases hcond : is_update = true ∧ doc_id = some fid
          · rw [if_pos hcond, ih]
            constructor
            · intro ⟨k', hk', w⟩
              exact ⟨k', List.mem_cons_of_mem _ hk', w⟩
            · intro ⟨k', hk', w⟩
              rcases List.mem_cons.mp hk' with rfl | hmem
              · obtain ⟨fid', hfid', hnc⟩ := w
                rw [hf] at hfid'
                obtain rfl : fid = fid' := by injection hfid'
                exact absurd hcond hnc
              · exact ⟨k', hmem, w⟩
          · rw [if_neg hcond]
            constructor
            · intro _
              exact ⟨k, List.mem_cons_self _ _, fid, hf, hcond⟩
            · intro _
              rfl

theorem insert_dry_err_iff (c : Collection)
    (find : String → Value → Option String) (fields : Doc)
    (owner : Option String) (force : Bool) (now : Value)
    (hreq : c.requires_owner_insert = true) :
    c.insert_dry find fields owner force now = .error .ownerRequired ↔
      (force = false ∧ owner = none ∧ c.force_ownership = true) := by
  unfold Collection.insert_dry
  by_cases hcond : c.requires_owner_insert = true ∧ force = false ∧
      owner = none ∧ c.force_ownership = true
  · rw [if_pos hcond]
    simp [hcond.2.1, hcond.2.2.1, hcond.2.2.2]
  · rw [if_neg hcond]
    have hcases := check_restrictions_cases find c.unique_keys
      (stampInsert c fields owner now)
      (docIdOf (stampInsert c fields owner now)) false
    have hrhs : ¬ (force = false ∧ owner = none ∧ c.force_ownership = true) := by
      intro hr
      exact hcond ⟨hreq, hr⟩
    rcases hcases with hok | herr
    · simp only [hok]
      constructor
      · intro h
        cases h
      · intro hr
        exact absurd hr hrhs
    · simp only [herr]
      constructor
      · intro h
        simp at h
      · intro hr
        exact absurd hr hrhs

theorem insert_dry_ok_spec {c : Collection}
    {find : String → Value → Option String} {fields : Doc}
    {owner : Option String} {force : Bool} {now : Value} {payload : Doc}
    (h : c.insert_dry find fields owner force now = .ok payload) :
    payload = parse_document_to_dict (stampInsert c fields owner now) := by
  unfold Collection.insert_dry at h
  split at h
  · cases h
  · split at h
    · cases h
    · rw [Except.ok.injEq] at h
      exact h.symm

theorem lookup_stampInsert_created_by (c : Collection) (fields : Doc)
    (owner : Option String) (now : Value)
    (hreq : c.requires_owner_insert = true) :
    lookupDoc (stampInsert c fields owner now) "created_by" =
      some (ownerVal owner) := by
  unfold stampInsert
  simp only [hreq, if_true]
  exact lookup_setField_self _ _ _

/-- C5 counterexample: on a schema variant requiring ownership on
insert, with `force_ownership=False` in the collection configuration, a
null owner without `force` does NOT fail — the insert succeeds and
stamps `created_by` to null, contradicting the claim that a null owner
without `force` always fails. -/
theorem C5_counterexample :
    Collection.insert ⟨true, true, true, true, false, []⟩ findNone
      [("id", Value.null), ("name", Value.str "bob")] none false
      (.time 0) "gid" =
      .ok (StoreOp.create "gid"
        [("name", .str "bob"), ("created_at", .time 0),
         ("created_by", .null)]) := rfl

/-- C5 amended: on a schema variant requiring ownership on insert, the
owner-demanding invalid-argument error is raised iff the owner is null,
`force` is not set AND the collection's configuration globally mandates
ownership (`force_ownership=True`); whenever the insert succeeds, the
written payload stamps `created_by` to the supplied owner (null
included). -/
theorem C5_insert_owner_rule (c : Collection)
    (find : String → Value → Option String) (fields : Doc)
    (owner : Option String) (force : Bool) (now : Value) (gen : String)
    (hreq : c.requires_owner_insert = true) :
    (c.insert find fields owner force now gen = .error .ownerRequired ↔
      (force = false ∧ owner = none ∧ c.force_ownership = true)) ∧
    (∀ i p, c.insert find fields owner force now gen =
        .ok (StoreOp.create i p) →
      lookupDoc p "created_by" = some (ownerVal owner)) := by
  constructor
  · have hlink : c.insert find fields owner force now gen =
        .error .ownerRequired ↔
        c.insert_dry find fields owner force now = .error .ownerRequired := by
      unfold Collection.insert
      cases hd : c.insert_dry find fields owner force now with
      | error e => simp [hd]
      | ok payload => simp [hd]
    rw [hlink]
    exact insert_dry_err_iff c find fields owner force now hreq
  · intro i p h
    unfold Collection.insert at h
    cases hd : c.insert_dry find fields owner force now with
    | error e => simp [hd] at h
    | ok payload =>
        simp only [hd, Except.ok.injEq, StoreOp.create.injEq] at h
        obtain ⟨-, rfl⟩ := h
        rw [insert_dry_ok_spec hd,
          lookup_removeKey_ne _ _ _ (by decide), lookup_parse,
          lookup_stampInsert_created_by c fields owner now hreq]
        cases owner <;> rfl

/-- C5 witness: with ownership globally mandated
(`force_ownership=True`), a null owner without `force` is rejected, and
a supplied owner is stamped into `created_by`. -/
theorem C5_witness :
    (Collection.insert ⟨true, true, true, true, true, []⟩ findNone
        [("id", Value.null), ("name", Value.str "bob")] none false
        (.time 0) "gid" = .error .ownerRequired ↔
      (false = false ∧ (none : Option String) = none ∧ true = true)) ∧
    (∀ i p, Collection.insert ⟨true, true, true, true, true, []⟩ findNone
        [("id", Value.null), ("name", Value.str "bob")] none false
        (.time 0) "gid" = .ok (StoreOp.create i p) →
      lookupDoc p "created_by" = some (ownerVal none)) :=
  C5_insert_owner_rule ⟨true, true, true, true, true, []⟩ findNone
    [("id", Value.null), ("name", Value.str "bob")] none false
    (.time 0) "gid" rfl

/-- C6 counterexample: one `in` condition mixed with a contains-style
operator does NOT fail with an invalid-argument error — the query
succeeds and the foreign condition is passed through to the chunked
sub-query (the claim demands failure here). -/
theorem C6_counterexample :
    query parseId streamNone
      [("a", "in", Value.list [.int 1]), ("b", "array_contains", .int 2)]
      none [] =
      ⟨[⟨[("a", "in", Value.list [.int 1]), ("b", "array_contains", .int 2)],
         [], none⟩], .ok []⟩ := rfl

/-- C6 amended: when a condition list holds exactly one `in` condition,
no operator-compatibility check is performed at all: every additional
condition, whatever its operator (a contains-style one included), is
applied unchanged to each chunked sub-query, and the query succeeds
(for ≤ 100 `in` values); the allowed-mixed-set validation only runs for
condition lists without an `in` condition.  In particular mixing `in`
with `==` succeeds with both constraints applied per chunk. -/
theorem C6_in_condition_mixing (parse : String → Value → Value)
    (stream : SubQuery → List Doc) (a b op2 : String) (vs : List Value)
    (v2 : Value) (limit : Option Nat)
    (hop : strToLower op2 ≠ "in")
    (hpa : parse a (Value.list vs) = Value.list vs)
    (hpb : parse b v2 = v2)
    (hlen : vs.length ≤ 100) :
    query parse stream [(a, "in", Value.list vs), (b, op2, v2)] limit [] =
      ⟨(chunks vs 10).map (fun c =>
          ⟨[(a, "in", Value.list c), (b, op2, v2)], [], effLimit limit⟩),
        .ok ((chunks vs 10).map (fun c =>
          stream ⟨[(a, "in", Value.list c), (b, op2, v2)], [],
            effLimit limit⟩)).flatten⟩ := by
  have h10 : (0 : Nat) < 10 := by norm_num
  have hin : strToLower "in" = "in" := rfl
  have hopb : (strToLower op2 == "in") = false := by
    rw [beq_eq_false_iff_ne]
    exact hop
  have hchunk : ¬ 10 < (chunks vs 10).length := by
    rw [chunks_length h10]
    omega
  simp only [query, List.map_cons, List.map_nil, hpa, hpb, hin,
    List.count_cons, List.count_nil, hopb, beq_self_eq_true, if_true,
    if_false]
  norm_num
  unfold query_in
  rw [if_neg hchunk, if_neg (by simp), if_neg (by simp), if_neg (by simp)]
  simp only [zip3, List.map_cons, List.map_nil, List.map_map]
  rfl

/-- C6 witness: mixing `in` with `==` on another attribute succeeds and
both constraints appear in the issued sub-query. -/
theorem C6_witness :
    query parseId streamNone
      [("a", "in", Value.list [.int 1, .int 2]), ("b", "==", .int 3)]
      none [] =
      ⟨[⟨[("a", "in", Value.list [.int 1, .int 2]), ("b", "==", .int 3)],
         [], none⟩], .ok []⟩ :=
  (C6_in_condition_mixing parseId streamNone "a" "b" "==" [.int 1, .int 2]
    (.int 3) none (by decide) rfl rfl (by norm_num)).trans (by rfl)

/-- C7: on an owner-audited schema (`SchemaWithOwner`, hence updatable,
since `Schema` always carries `updated_at`) with an owner supplied,
`delete` first issues a merge-write stamping `updated_at`, `updated_by`
and `deleted=True` and only afterwards the hard delete; with ownership
globally mandated, no `force` and no owner, it fails demanding an
owner. -/
theorem C7_delete_soft_mark (c : Collection) (id : String) (now : Value) :
    (∀ (o : String) (force : Bool), c.schema_with_owner = true →
      c.is_updatable = true →
      c.delete id (some o) force now =
        .ok [StoreOp.set id
              [("updated_at", now), ("updated_by", .str o),
               ("deleted", .bool true)] true,
             StoreOp.delete id]) ∧
    (∀ force : Bool, c.schema_with_owner = true →
      c.force_ownership = true → force = false →
      c.delete id none force now = .error .ownerRequired) := by
  constructor
  · intro o force hso hu
    unfold Collection.delete
    rw [if_pos hso, if_neg (by simp)]
    simp [softDeleteDoc, hu]
  · intro force hso hfo hf
    subst hf
    unfold Collection.delete
    rw [if_pos hso, if_pos ⟨rfl, rfl, hfo⟩]

/-- C7 witness: a concrete owner-audited delete soft-marks before the
hard delete, and a missing owner under mandated ownership is
rejected. -/
theorem C7_witness :
    Collection.delete ⟨true, true, true, true, true, []⟩ "d" (some "alice")
        false (.time 3) =
      .ok [StoreOp.set "d"
            [("updated_at", .time 3), ("updated_by", .str "alice"),
             ("deleted", .bool true)] true,
           StoreOp.delete "d"] ∧
    Collection.delete ⟨true, true, true, true, true, []⟩ "d" none false
        (.time 3) = .error .ownerRequired :=
  ⟨(C7_delete_soft_mark ⟨true, true, true, true, true, []⟩ "d" (.time 3)).1
      "alice" false rfl rfl,
   (C7_delete_soft_mark ⟨true, true, true, true, true, []⟩ "d" (.time 3)).2
      false rfl rfl rfl⟩

/-- C8 counterexample: `query_by_attributes` with 2 attributes, 2 values
but only 1 operator does NOT fail — `zip` silently truncates and one
store query is issued (the claim demands an invalid-argument failure
with no query whenever the three lengths do not all match). -/
theorem C8_counterexample :
    query_by_attributes parseId streamNone ["a", "b"] [.int 1, .int 2]
      ["=="] none [] =
      ⟨[⟨[("a", "==", .int 1)], [], none⟩], .ok []⟩ := rfl

/-- C8 amended: `query_by_attributes` raises the mismatched-lengths
invalid-argument error (issuing no store query) exactly when the
attribute and value list lengths differ; the operators list length is
never validated — the conditions are built by `zip`, which silently
truncates to the shortest of the three lists. -/
theorem C8_query_by_attributes_lengths (parse : String → Value → Value)
    (stream : SubQuery → List Doc) (attributes : List String)
    (values : List Value) (operators : List String) (limit : Option Nat)
    (order_by : List (String × Bool)) :
    (attributes.length ≠ values.length →
      query_by_attributes parse stream attributes values operators limit
          order_by =
        ⟨[], .error .mismatchedLengths⟩) ∧
    (attributes.length = values.length →
      query_by_attributes parse stream attributes values operators limit
          order_by =
        query parse stream
          ((zip3 attributes operators values).map
            (fun t => (t.1, t.2.1, t.2.2))) limit order_by) := by
  constructor
  · intro hne
    unfold query_by_attributes
    rw [if_pos hne]
  · intro heq
    unfold query_by_attributes
    rw [if_neg (by omega)]

/-- C8 witness: mismatched attribute/value lengths fail; equal
attribute/value lengths proceed even with an over-long operators list
(zip truncation). -/
theorem C8_witness :
    query_by_attributes parseId streamNone ["a"] [] [] none [] =
      ⟨[], .error .mismatchedLengths⟩ ∧
    query_by_attributes parseId streamNone ["a", "b"] [.int 1, .int 2]
        ["==", "<", ">"] none [] =
      query parseId streamNone
        ((zip3 ["a", "b"] ["==", "<", ">"] [.int 1, .int 2]).map
          (fun t => (t.1, t.2.1, t.2.2))) none [] :=
  ⟨(C8_query_by_attributes_lengths parseId streamNone ["a"] [] [] none []).1
      (by simp),
   (C8_query_by_attributes_lengths parseId streamNone ["a", "b"]
      [.int 1, .int 2] ["==", "<", ">"] none []).2 rfl⟩

/-- C9: for the same record, `bulk_update` under its source default
batches a `set` with `merge=False` — a full-document replacement — while
the single-item `update` always merge-writes (`merge=True`); applied to
any prior stored document the two writes never agree (the replacement
drops the `id` field the merge-write keeps), so agreement requires
calling `bulk_update` with `merge=True`, which matches `update`'s flag. -/
theorem C9_bulk_update_merge_flag (c : Collection)
    (find : String → Value → Option String) (fields : Doc)
    (owner : Option String) (force : Bool) (now : Value) (gen : String)
    (doc_id : String) (payload : Doc)
    (h : c.update_dry find fields owner force now = .ok (doc_id, payload)) :
    c.update find fields owner force now =
      .ok (StoreOp.set doc_id payload true) ∧
    bulkUpdateOp payload gen false =
      StoreOp.set doc_id (removeKey payload "id") false ∧
    bulkUpdateOp payload gen true =
      StoreOp.set doc_id (removeKey payload "id") true ∧
    (∀ old : Doc,
      applySet old (removeKey payload "id") false = removeKey payload "id") ∧
    (∀ old : Doc,
      applySet old (removeKey payload "id") false ≠
        applySet old payload true) := by
  obtain ⟨hid, hpay, hlook⟩ := update_dry_spec h
  have hpop : popIdOr payload gen = doc_id := by
    unfold popIdOr
    rw [hlook]
  refine ⟨?_, ?_, ?_, fun old => rfl, ?_⟩
  · unfold Collection.update
    rw [h]
  · unfold bulkUpdateOp
    rw [hpop]
  · unfold bulkUpdateOp
    rw [hpop]
  · intro old heq
    have h1 := congrArg (fun d => lookupDoc d "id") heq
    simp only [applySet_replace, applySet_merge, lookup_mergeDocs,
      lookup_removeKey_self, hlook] at h1
    exact Option.noConfusion h1

/-- C9 witness: a concrete record where the default bulk write replaces
and the single update merges, and the two disagree on every prior
document. -/
theorem C9_witness :
    ctxPlain.update findNone
        [("id", .str "d1"), ("name", .str "bob"), ("updated_at", .null)]
        none false (.time 7) =
      .ok (StoreOp.set "d1"
        [("id", .str "d1"), ("name", .str "bob"), ("updated_at", .time 7)]
        true) ∧
    bulkUpdateOp
        [("id", .str "d1"), ("name", .str "bob"), ("updated_at", .time 7)]
        "g" false =
      StoreOp.set "d1"
        (removeKey
          [("id", .str "d1"), ("name", .str "bob"), ("updated_at", .time 7)]
          "id") false ∧
    bulkUpdateOp
        [("id", .str "d1"), ("name", .str "bob"), ("updated_at", .time 7)]
        "g" true =
      StoreOp.set "d1"
        (removeKey
          [("id", .str "d1"), ("name", .str "bob"), ("updated_at", .time 7)]
          "id") true ∧
    (∀ old : Doc,
      applySet old
        (removeKey
          [("id", .str "d1"), ("name", .str "bob"), ("updated_at", .time 7)]
          "id") false =
      removeKey
        [("id", .str "d1"), ("name", .str "bob"), ("updated_at", .time 7)]
        "id") ∧
    (∀ old : Doc,
      applySet old
        (removeKey
          [("id", .str "d1"), ("name", .str "bob"), ("updated_at", .time 7)]
          "id") false ≠
      applySet old
        [("id", .str "d1"), ("name", .str "bob"), ("updated_at", .time 7)]
        true) :=
  C9_bulk_update_merge_flag ctxPlain findNone
    [("id", .str "d1"), ("name", .str "bob"), ("updated_at", .null)]
    none false (.time 7) "g" "d1"
    [("id", .str "d1"), ("name", .str "bob"), ("updated_at", .time 7)] rfl

/-- C10: `insert` pops the `id` key before writing, so a created body
never holds an `id` field, while `update` merge-writes the serialised
record with its `id` key retained, so after an update the stored body
holds an `id` field equal to the document's own id. -/
theorem C10_id_field_insert_vs_update (c : Collection)
    (find : String → Value → Option String) (owner : Option String)
    (force : Bool) (now : Value) :
    (∀ (fields : Doc) (gen i : String) (p : Doc),
      c.insert find fields owner force now gen = .ok (StoreOp.create i p) →
      lookupDoc p "id" = none) ∧
    (∀ (fields : Doc) (doc_id : String) (payload : Doc),
      c.update_dry find fields owner force now = .ok (doc_id, payload) →
      c.update find fields owner force now =
        .ok (StoreOp.set doc_id payload true) ∧
      lookupDoc payload "id" = some (.str doc_id) ∧
      ∀ old : Doc, lookupDoc (applySet old payload true) "id" =
        some (.str doc_id)) := by
  constructor
  · intro fields gen i p h
    unfold Collection.insert at h
    cases hd : c.insert_dry find fields owner force now with
    | error e => simp [hd] at h
    | ok payload =>
        simp only [hd, Except.ok.injEq, StoreOp.create.injEq] at h
        obtain ⟨-, rfl⟩ := h
        exact lookup_removeKey_self _ _
  · intro fields doc_id payload h
    obtain ⟨hid, hpay, hlook⟩ := update_dry_spec h
    refine ⟨?_, hlook, ?_⟩
    · unfold Collection.update
      rw [h]
    · intro old
      rw [applySet_merge, lookup_mergeDocs, hlook]

/-- C10 witness: a concrete insert stores a body without an `id` field;
a concrete update stores one whose `id` field equals the document id. -/
theorem C10_witness :
    lookupDoc [("name", .str "bob"), ("created_at", .time 0)] "id" = none ∧
    (ctxPlain.update findNone [("id", .str "d1"), ("updated_at", .null)]
        none false (.time 7) =
      .ok (StoreOp.set "d1" [("id", .str "d1"), ("updated_at", .time 7)]
        true) ∧
    lookupDoc [("id", .str "d1"), ("updated_at", .time 7)] "id" =
      some (.str "d1") ∧
    ∀ old : Doc,
      lookupDoc (applySet old [("id", .str "d1"), ("updated_at", .time 7)]
        true) "id" = some (.str "d1")) :=
  ⟨(C10_id_field_insert_vs_update ctxPlain findNone none false (.time 0)).1
      [("id", Value.null), ("name", .str "bob")] "gid" _ _ rfl,
   (C10_id_field_insert_vs_update ctxPlain findNone none false (.time 7)).2
      [("id", .str "d1"), ("updated_at", .null)] "d1" _ rfl⟩

end FS
